import Mathlib

/-!
Verification of the Betfair odds backend's per-market stream worker, order
submitter and worker supervisor.

The definitions below are a shallow embedding of the JavaScript source:

* `src/workers/StreamWorker.js` — price window queries
  (`checkPriceMovement90s`, `isPriceUnchanged15s`), the decision engine
  (`evaluateBettingConditions` with its helper `isPriceDifferenceOne`), the
  ball state machine (`ballDetect`), the in-flight/cooldown concurrency
  guard around `placeBet`, and the socket data handler
  (`processBlocks` / `processMessages`).
* `src/utils/bettingService.js` — the retry/backoff wrapper
  (`retryWithBackoff`).
* the worker supervisor (`StreamController.js`) — lifecycle notification
  handlers that remove a market's worker record.

JavaScript numbers are modelled as exact rationals (`Rat`), timestamps as
`Int` (milliseconds).  JavaScript truthiness on nullable numbers (`null`
and `0` are falsy) is modelled by `jsTruthy` / `jsOr`.
-/

/-- Market definition status values carried by the stream
(`marketDefinition?.status`).  `UNKNOWN` stands for any other string. -/
inductive MarketStatus where
  | OPEN
  | SUSPENDED
  | CLOSED
  | UNKNOWN
deriving DecidableEq, Repr

/-- Order side. -/
inductive Side where
  | BACK
  | LAY
deriving DecidableEq, Repr

/-- One entry of `priceHistory`:
`{ timestamp, backPrice, layPrice, selectionId }`. -/
structure PriceSample where
  timestamp : Int
  backPrice : Option Rat
  layPrice : Option Rat
  selectionId : Nat
deriving DecidableEq, Repr

/-- JavaScript truthiness of a nullable number: `null` and `0` are falsy. -/
def jsTruthy : Option Rat → Bool
  | some x => decide (x ≠ 0)
  | none => false

/-- JavaScript `a || b` on nullable numbers: yields `b` when `a` is falsy
(`null` or `0`), else `a`. -/
def jsOr : Option Rat → Option Rat → Option Rat
  | some x, b => if x = 0 then b else some x
  | none, b => b

/-- Result of `checkPriceMovement90s`: `{ movement, oldPrice, newPrice }`. -/
structure MovementInfo where
  movement : Rat
  oldPrice : Rat
  newPrice : Rat
deriving DecidableEq, Repr

/-- `checkPriceMovement90s` (StreamWorker.js, lines 93–116): filter samples
with `timestamp >= now - 90000`; `null` when fewer than 2 remain; otherwise
take the first and last qualifying sample, compute each one's price as
`backPrice || layPrice`, return `null` when either is falsy, else
`{ movement := newest - oldest, oldPrice, newPrice }`. -/
def checkPriceMovement90s (priceHistory : List PriceSample) (now : Int) :
    Option MovementInfo :=
  let ninetySecondsAgo := now - 90000
  let recentPrices := priceHistory.filter (fun p => decide (p.timestamp ≥ ninetySecondsAgo))
  if recentPrices.length < 2 then none
  else
    match recentPrices.head?, recentPrices.getLast? with
    | some oldest, some newest =>
      match jsOr oldest.backPrice oldest.layPrice, jsOr newest.backPrice newest.layPrice with
      | some oldPrice, some newPrice =>
        if oldPrice = 0 ∨ newPrice = 0 then none
        else some ⟨newPrice - oldPrice, oldPrice, newPrice⟩
      | _, _ => none
    | _, _ => none

/-- `isPriceUnchanged15s` (StreamWorker.js, lines 121–137): filter samples
with `timestamp >= now - 15000`; `false` when fewer than 2 remain; else
true iff every qualifying sample's price (`backPrice || layPrice`) is
truthy and within `0.01` of the first qualifying sample's price (the first
price coerces to `0` in the subtraction when it is `null`). -/
def isPriceUnchanged15s (priceHistory : List PriceSample) (now : Int) : Bool :=
  let fifteenSecondsAgo := now - 15000
  let recentPrices := priceHistory.filter (fun p => decide (p.timestamp ≥ fifteenSecondsAgo))
  if recentPrices.length < 2 then false
  else
    match recentPrices.head? with
    | none => false
    | some first =>
      let firstPrice := jsOr first.backPrice first.layPrice
      recentPrices.all (fun p =>
        match jsOr p.backPrice p.layPrice with
        | some currentPrice =>
          decide (currentPrice ≠ 0) && decide (|currentPrice - firstPrice.getD 0| < 0.01)
        | none => false)

/-- `isPriceDifferenceOne` (StreamWorker.js, lines 83–87): `false` when
either price is falsy, else whether `|layPrice - backPrice|` is within
`0.01` of `1`. -/
def isPriceDifferenceOne (backPrice layPrice : Option Rat) : Bool :=
  if (!(jsTruthy backPrice) || !(jsTruthy layPrice)) then false
  else decide (|(|layPrice.getD 0 - backPrice.getD 0|) - 1| < 0.01)

/-- Messages posted to the supervisor via `parentPort` (payloads that no
claim depends on are dropped). -/
inductive ParentMsg where
  | connected
  | connectionAck
  | statusAck
  | marketClosed
  | closed
  | ballCompleted (ballCount : Nat)
  | priceUpdate (selectionId : Nat)
deriving DecidableEq, Repr

/-- The stream worker's mutable module-level state: `isRunning`, the
socket, ball detection state, `priceHistory`, cooldown state
(`lastBetTime`, `lastBetPrice`) and the in-flight bet key set.  `outbox`
records messages sent to the parent and `submitted` logs each asynchronous
`placeBet` call that was started (by its bet key), in order. -/
structure WState where
  isRunning : Bool
  socketAlive : Bool
  ballInProgress : Bool
  ballCount : Nat
  priceHistory : List PriceSample
  lastBetTime : Option Int
  lastBetPrice : Option Rat
  inFlightBets : List (Nat × Int)
  outbox : List ParentMsg
  submitted : List (Nat × Int)
deriving DecidableEq, Repr

/-- Initial worker state (StreamWorker.js, lines 13–26). -/
def initialWState : WState where
  isRunning := true
  socketAlive := true
  ballInProgress := false
  ballCount := 0
  priceHistory := []
  lastBetTime := none
  lastBetPrice := none
  inFlightBets := []
  outbox := []
  submitted := []

/-- An order intent returned by `evaluateBettingConditions` (the
human-readable `reason` string is not modelled). -/
structure OrderIntent where
  side : Side
  price : Rat
  oldPrice : Rat
  newPrice : Rat
deriving DecidableEq, Repr

/-- Cooldown test (StreamWorker.js, lines 149–155): `lastBetTime` truthy
and `Date.now() - lastBetTime < 15000`. -/
def cooldownActive (lastBetTime : Option Int) (now : Int) : Bool :=
  match lastBetTime with
  | some t => decide (t ≠ 0) && decide (now - t < 15000)
  | none => false

/-- Same-price test (StreamWorker.js, lines 176–180): both values strictly
non-null and within `0.01` of each other. -/
def samePriceAsLastBet (lastBetPrice proposedBetPrice : Option Rat) : Bool :=
  match lastBetPrice, proposedBetPrice with
  | some lp, some pp => decide (|pp - lp| < 0.01)
  | _, _ => false

/-- The threshold-driven proposed bet price (StreamWorker.js, lines
166–173): the current back price when the movement reaches the up
threshold, the current lay price when it reaches the (negated) down
threshold, else `null`. -/
def proposedBetPrice (pm : MovementInfo) (backPrice layPrice : Option Rat)
    (upThreshold downThreshold : Rat) : Option Rat :=
  if pm.movement ≥ upThreshold then backPrice
  else if pm.movement ≤ -downThreshold then layPrice
  else none

/-- `evaluateBettingConditions` (StreamWorker.js, lines 142–210).  Checks,
in source order: spread (`isPriceDifferenceOne`), cooldown, movement
availability, same-price-as-last-bet on the threshold-driven proposed
price, price-unchanged-over-15s, and finally the movement thresholds.
The source's `selectionId` parameter is never read by the function and is
dropped here. -/
def evaluateBettingConditions (st : WState) (now : Int)
    (backPrice layPrice : Option Rat) (upThreshold downThreshold : Rat) :
    Option OrderIntent :=
  if !(isPriceDifferenceOne backPrice layPrice) then none
  else if cooldownActive st.lastBetTime now then none
  else
    match checkPriceMovement90s st.priceHistory now with
    | none => none
    | some pm =>
      if samePriceAsLastBet st.lastBetPrice
          (proposedBetPrice pm backPrice layPrice upThreshold downThreshold) then none
      else if isPriceUnchanged15s st.priceHistory now then none
      else if pm.movement ≥ upThreshold then
        some ⟨Side.BACK, backPrice.getD 0, pm.oldPrice, pm.newPrice⟩
      else if pm.movement ≤ -downThreshold then
        some ⟨Side.LAY, layPrice.getD 0, pm.oldPrice, pm.newPrice⟩
      else none

/-- `price.toFixed(2)` used to build bet keys, modelled as the price in
hundredths, rounded. -/
def toFixed2 (price : Rat) : Int := round (price * 100)

/-- The in-flight bet key `` `${selectionId}:${price.toFixed(2)}` ``. -/
def betKey (selectionId : Nat) (price : Rat) : Nat × Int :=
  (selectionId, toFixed2 price)

/-- `sendToParent` (StreamWorker.js, lines 31–35). -/
def sendToParent (st : WState) (m : ParentMsg) : WState :=
  { st with outbox := st.outbox ++ [m] }

/-- The guard around bet placement in the socket data handler
(StreamWorker.js, lines 390–427): skip when the bet key is already
in-flight; skip when the decision's price is within `0.01` of
`lastBetPrice`; otherwise add the key to `inFlightBets`, then set
`lastBetTime`/`lastBetPrice`, then start the asynchronous `placeBet`
(recorded in `submitted`). -/
def handleBetDecision (st : WState) (now : Int) (selectionId : Nat)
    (d : OrderIntent) : WState :=
  let k := betKey selectionId d.price
  if st.inFlightBets.contains k then st
  else if (match st.lastBetPrice with
           | some lp => decide (|d.price - lp| < 0.01)
           | none => false) then st
  else
    { st with
      inFlightBets := k :: st.inFlightBets
      lastBetTime := some now
      lastBetPrice := some d.price
      submitted := st.submitted ++ [k] }

/-- Settlement of one `placeBet` call (StreamWorker.js, lines 52–77): the
`try`/`catch`/`finally` deletes the bet key from `inFlightBets` on both
the success path and the failure path, so the result flag is ignored. -/
def placeBetSettle (st : WState) (k : Nat × Int) (succeeded : Bool) : WState :=
  { st with inFlightBets := st.inFlightBets.erase k }

/-- Ball detection (StreamWorker.js, lines 333–343): `SUSPENDED` sets
`ballInProgress`; `OPEN` while `ballInProgress` increments `ballCount`,
clears the flag and notifies the parent; anything else is a no-op. -/
def ballDetect (st : WState) (marketStatus : Option MarketStatus) : WState :=
  let st1 :=
    if marketStatus = some MarketStatus.SUSPENDED then
      { st with ballInProgress := true }
    else st
  if marketStatus = some MarketStatus.OPEN ∧ st1.ballInProgress = true then
    sendToParent { st1 with ballCount := st1.ballCount + 1, ballInProgress := false }
      (ParentMsg.ballCompleted (st1.ballCount + 1))
  else st1

/-- One runner change: `{ id, batb, batl, ltp }` where `batb`/`batl` hold
`[level, price, size]` triples. -/
structure RunnerChange where
  id : Nat
  batb : List (Rat × Rat × Rat)
  batl : List (Rat × Rat × Rat)
  ltp : Option Rat
deriving DecidableEq, Repr

/-- Per-worker configuration thresholds from `workerData`. -/
structure WorkerConfig where
  upThreshold : Rat
  downThreshold : Rat
deriving DecidableEq, Repr

/-- Runner processing in the socket data handler (StreamWorker.js, lines
347–439): extract best back/lay prices from the first ladder entries; when
either is truthy, push a `PriceSample` and prune the history to the last
120 seconds; when both are truthy, run `evaluateBettingConditions` and
feed any decision to the guard; finally post a `priceUpdate` when a ladder
entry or a last-traded price is present. -/
def processRunner (cfg : WorkerConfig) (st : WState) (now : Int)
    (runner : RunnerChange) : WState :=
  let bestBack := runner.batb.head?
  let bestLay := runner.batl.head?
  let backPrice := bestBack.map (fun t => t.2.1)
  let layPrice := bestLay.map (fun t => t.2.1)
  let st1 :=
    if (jsTruthy backPrice || jsTruthy layPrice) then
      let pushed := st.priceHistory ++ [⟨now, backPrice, layPrice, runner.id⟩]
      let twoMinutesAgo := now - 120000
      { st with priceHistory := pushed.filter (fun p => decide (p.timestamp ≥ twoMinutesAgo)) }
    else st
  let st2 :=
    if (jsTruthy backPrice && jsTruthy layPrice) then
      match evaluateBettingConditions st1 now backPrice layPrice
          cfg.upThreshold cfg.downThreshold with
      | some d => handleBetDecision st1 now runner.id d
      | none => st1
    else st1
  if (bestBack.isSome || bestLay.isSome || runner.ltp.isSome) then
    sendToParent st2 (ParentMsg.priceUpdate runner.id)
  else st2

/-- Left-to-right processing of a market-change block's runner list. -/
def processRunners (cfg : WorkerConfig) (st : WState) (now : Int) :
    List RunnerChange → WState
  | [] => st
  | r :: rest => processRunners cfg (processRunner cfg st now r) now rest

/-- One per-market change block of an `mcm` frame. -/
structure MarketBlock where
  marketStatus : Option MarketStatus
  rc : List RunnerChange
deriving DecidableEq, Repr

/-- `cleanup` (StreamWorker.js, lines 215–226): clear `isRunning`, destroy
the socket, send `closed` to the parent. -/
def cleanupWorker (st : WState) : WState :=
  sendToParent { st with isRunning := false, socketAlive := false } ParentMsg.closed

/-- Processing of the `mc` block list of one `mcm` frame (StreamWorker.js,
lines 322–442).  A `CLOSED` market definition sends `marketClosed`, runs
`cleanup` and returns from the data handler (the `Bool` component reports
that early return); otherwise the status feeds ball detection and the
runner list is processed. -/
def processBlocks (cfg : WorkerConfig) (st : WState) (now : Int) :
    List MarketBlock → WState × Bool
  | [] => (st, false)
  | b :: rest =>
    if b.marketStatus = some MarketStatus.CLOSED then
      (cleanupWorker (sendToParent st ParentMsg.marketClosed), true)
    else
      processBlocks cfg (processRunners cfg (ballDetect st b.marketStatus) now b.rc) now rest

/-- One decoded frame of the stream, discriminated by `op`. -/
inductive StreamMsg where
  | connection
  | statusMsg
  | mcm (mc : List MarketBlock)
  | other
deriving DecidableEq, Repr

/-- Dispatch of one decoded frame (StreamWorker.js, lines 301–443).  The
`Bool` component reports the early `return` triggered by market closure. -/
def processMsg (cfg : WorkerConfig) (st : WState) (now : Int) :
    StreamMsg → WState × Bool
  | .connection => (sendToParent st ParentMsg.connectionAck, false)
  | .statusMsg => (sendToParent st ParentMsg.statusAck, false)
  | .mcm mc => processBlocks cfg st now mc
  | .other => (st, false)

/-- The frame loop of one socket read (StreamWorker.js, lines 284–445):
the running flag is checked before each frame, and the early return of
market closure abandons all remaining frames of the read. -/
def processMessages (cfg : WorkerConfig) (st : WState) (now : Int) :
    List StreamMsg → WState
  | [] => st
  | m :: rest =>
    if st.isRunning = false then st
    else
      match processMsg cfg st now m with
      | (st1, true) => st1
      | (st1, false) => processMessages cfg st1 now rest

/-- Outcome of one attempt of the retried function in `retryWithBackoff`:
success, or a thrown error carrying `error.response?.status` (`none` when
there was no response, i.e. a network failure). -/
inductive AttemptOutcome where
  | success
  | failure (status : Option Nat)
deriving DecidableEq, Repr

/-- Result of `retryWithBackoff`: the value or the last thrown error,
together with how many attempts ran and the list of inter-attempt delays
(in ms) that were slept.  `exhausted` is the loop falling through, which
cannot happen with a positive retry bound. -/
inductive RetryOutcome where
  | ok (attemptsMade : Nat) (delays : List Nat)
  | err (status : Option Nat) (attemptsMade : Nat) (delays : List Nat)
  | exhausted (attemptsMade : Nat) (delays : List Nat)
deriving DecidableEq, Repr

/-- The non-retryable test of `retryWithBackoff` (bettingService.js, line
30): a response status in `[400, 500)` other than `429`. -/
def nonRetryable : Option Nat → Bool
  | some s => decide (400 ≤ s) && decide (s < 500) && decide (s ≠ 429)
  | none => false

/-- The `for` loop of `retryWithBackoff` (bettingService.js, lines 24–44),
with `fn`'s per-attempt outcomes given as a function of the attempt index:
rethrow immediately on a non-retryable status; rethrow on the last
attempt; otherwise sleep `baseDelay * 2 ^ attempt` and try again. -/
def retryWithBackoffGo (fn : Nat → AttemptOutcome) (maxRetries baseDelay : Nat) :
    Nat → Nat → List Nat → RetryOutcome
  | 0, attempt, delays => .exhausted attempt delays
  | fuel + 1, attempt, delays =>
    match fn attempt with
    | .success => .ok (attempt + 1) delays
    | .failure status =>
      if nonRetryable status then .err status (attempt + 1) delays
      else if attempt = maxRetries - 1 then .err status (attempt + 1) delays
      else retryWithBackoffGo fn maxRetries baseDelay fuel (attempt + 1)
          (delays ++ [baseDelay * 2 ^ attempt])

/-- `retryWithBackoff(fn, maxRetries, baseDelay)` (bettingService.js,
lines 24–44); `placeBetOrder` calls it with `maxRetries = 3` and
`baseDelay = 100`. -/
def retryWithBackoff (fn : Nat → AttemptOutcome) (maxRetries baseDelay : Nat) :
    RetryOutcome :=
  retryWithBackoffGo fn maxRetries baseDelay maxRetries 0 []

/-- `activeWorkers.get(marketId)` on the supervisor's record map,
projected to the worker instance (worker instances are identified by
`Nat` tags). -/
def lookupWorker : List (String × Nat) → String → Option Nat
  | [], _ => none
  | (m, w) :: rest, mid => if m = mid then some w else lookupWorker rest mid

/-- `activeWorkers.delete(marketId)`. -/
def removeWorker : List (String × Nat) → String → List (String × Nat)
  | [], _ => []
  | (m, w) :: rest, mid => if m = mid then rest else (m, w) :: removeWorker rest mid

/-- The message types of the supervisor's worker `message` handler that
matter for record removal (StreamController.js / part_003, lines
117–156). -/
inductive WorkerMsgType where
  | errorMsg
  | marketClosed
  | closedMsg
  | stoppedMsg
deriving DecidableEq, Repr

/-- The supervisor's worker `message` handler (part_003, lines 117–156),
running in the closure of the worker instance `handlerWorker`: `error`
only logs; `marketClosed` stops the worker and deletes the market's record
unconditionally; `closed` and `stopped` delete the record only when it
still points at `handlerWorker`. -/
def onWorkerMessage (aw : List (String × Nat)) (handlerWorker : Nat)
    (msgMarketId : String) : WorkerMsgType → List (String × Nat)
  | .errorMsg => aw
  | .marketClosed => removeWorker aw msgMarketId
  | .closedMsg =>
    match lookupWorker aw msgMarketId with
    | some w => if w = handlerWorker then removeWorker aw msgMarketId else aw
    | none => aw
  | .stoppedMsg =>
    match lookupWorker aw msgMarketId with
    | some w => if w = handlerWorker then removeWorker aw msgMarketId else aw
    | none => aw

/-- The supervisor's worker `error` event handler (part_003, lines
158–164): delete the record only when it still points at the handler's
worker. -/
def onWorkerErrorEvent (aw : List (String × Nat)) (handlerWorker : Nat)
    (marketId : String) : List (String × Nat) :=
  match lookupWorker aw marketId with
  | some w => if w = handlerWorker then removeWorker aw marketId else aw
  | none => aw

/-- The supervisor's worker `exit` event handler (part_003, lines
166–174): a non-zero code is logged; the record is deleted (for any exit
code) only when it still points at the handler's worker. -/
def onWorkerExitEvent (aw : List (String × Nat)) (handlerWorker : Nat)
    (marketId : String) (code : Int) : List (String × Nat) :=
  match lookupWorker aw marketId with
  | some w => if w = handlerWorker then removeWorker aw marketId else aw
  | none => aw

/-- Modelled from the spec: a sample's price is "its back price if
present, else its lay price" (spec §4.3); used to compare the
implementation's `backPrice || layPrice` against the spec's words. -/
def specSamplePrice (s : PriceSample) : Option Rat :=
  match s.backPrice with
  | some b => some b
  | none => s.layPrice

/-- Modelled from the spec: the number of SUSPENDED-then-OPEN pairs in a
status sequence (spec §3/§8), given whether a suspension is already
pending. -/
def suspendedOpenPairs : Bool → List (Option MarketStatus) → Nat
  | _, [] => 0
  | _, some MarketStatus.SUSPENDED :: rest => suspendedOpenPairs true rest
  | true, some MarketStatus.OPEN :: rest => suspendedOpenPairs false rest + 1
  | pending, _ :: rest => suspendedOpenPairs pending rest

/-- A well-formed price sample: no recorded price is the number `0` and at
least one price is present (what the tracker's push site guarantees, plus
positivity of betting prices). -/
def goodSample (s : PriceSample) : Prop :=
  s.backPrice ≠ some 0 ∧ s.layPrice ≠ some 0 ∧ (s.backPrice ≠ none ∨ s.layPrice ≠ none)

/-- Relabelling of a sample's `selectionId`, used to state that the window
queries never read it. -/
def relabelSample (f : Nat → Nat) (s : PriceSample) : PriceSample :=
  { s with selectionId := f s.selectionId }

theorem foldl_ballDetect_ballCount (sts : List (Option MarketStatus)) :
    ∀ st : WState, (List.foldl ballDetect st sts).ballCount
      = st.ballCount + suspendedOpenPairs st.ballInProgress sts := by
  induction sts with
  | nil => intro st; simp [suspendedOpenPairs]
  | cons s rest ih =>
    intro st
    rw [List.foldl_cons, ih]
    cases hb : st.ballInProgress with
    | false =>
      cases s with
      | none => simp [ballDetect, hb, suspendedOpenPairs]
      | some m =>
        cases m with
        | OPEN => simp [ballDetect, hb, suspendedOpenPairs]
        | SUSPENDED => simp [ballDetect, hb, suspendedOpenPairs]
        | CLOSED => simp [ballDetect, hb, suspendedOpenPairs]
        | UNKNOWN => simp [ballDetect, hb, suspendedOpenPairs]
    | true =>
      cases s with
      | none => simp [ballDetect, hb, suspendedOpenPairs]
      | some m =>
        cases m with
        | OPEN =>
          simp [ballDetect, hb, suspendedOpenPairs, sendToParent]
          omega
        | SUSPENDED => simp [ballDetect, hb, suspendedOpenPairs]
        | CLOSED => simp [ballDetect, hb, suspendedOpenPairs]
        | UNKNOWN => simp [ballDetect, hb, suspendedOpenPairs]

/-- C2 counterexample: when every attempt fails with status 500 and the
submitter's configuration (3 attempts, base delay 100ms) is used, the run
makes 3 attempts but sleeps only 100ms and 200ms between them — the
claimed third inter-attempt delay of 400ms never occurs, because the third
attempt is the last and rethrows without sleeping. -/
theorem retry_all500_counterexample :
    retryWithBackoff (fun _ => AttemptOutcome.failure (some 500)) 3 100
      = RetryOutcome.err (some 500) 3 [100, 200]
    ∧ retryWithBackoff (fun _ => AttemptOutcome.failure (some 500)) 3 100
      ≠ RetryOutcome.err (some 500) 3 [100, 200, 400] := by
  exact ⟨rfl, by decide⟩

/-- C2 (amended): a submission whose every attempt fails with HTTP 500 is
retried up to 3 total attempts with inter-attempt delays of 100ms and
200ms (no 400ms delay occurs: the third attempt is the last and rethrows);
a 400 failure is not retried and is rethrown after the first attempt; a
429 failure is retried; a failure with no response (network failure) is
retried. -/
theorem retryWithBackoff_policy :
    retryWithBackoff (fun _ => AttemptOutcome.failure (some 500)) 3 100
      = RetryOutcome.err (some 500) 3 [100, 200]
    ∧ retryWithBackoff (fun _ => AttemptOutcome.failure (some 400)) 3 100
      = RetryOutcome.err (some 400) 1 []
    ∧ retryWithBackoff (fun n => if n = 0 then AttemptOutcome.failure (some 429)
        else AttemptOutcome.success) 3 100
      = RetryOutcome.ok 2 [100]
    ∧ retryWithBackoff (fun n => if n = 0 then AttemptOutcome.failure none
        else AttemptOutcome.success) 3 100
      = RetryOutcome.ok 2 [100] := by
  exact ⟨rfl, rfl, rfl, rfl⟩

/-- C3 counterexample: a record that points at worker 2 (registered for
market "m", e.g. by a fast restart) is removed by a stale `marketClosed`
notification arriving from the replaced worker 1 — the `marketClosed`
removal path does not verify the worker instance. -/
theorem supervisor_marketClosed_stale_removal :
    lookupWorker [("m", 2)] "m" = some 2
    ∧ (2 : Nat) ≠ 1
    ∧ onWorkerMessage [("m", 2)] 1 "m" WorkerMsgType.marketClosed = [] := by
  refine ⟨by simp [lookupWorker], by decide, by simp [onWorkerMessage, removeWorker]⟩

/-- C3 (amended): the supervisor's removal paths for `closed`, `stopped`,
unexpected `error` and worker exit (any code) remove a market's record
only after verifying that the record still points at the exact worker
instance being torn down; the `marketClosed` path, however, removes the
record unconditionally, without that verification. -/
theorem supervisor_removal_guarded (aw : List (String × Nat))
    (handlerWorker other : Nat) (mid : String)
    (hlk : lookupWorker aw mid = some other) (hne : other ≠ handlerWorker) :
    onWorkerMessage aw handlerWorker mid WorkerMsgType.closedMsg = aw
    ∧ onWorkerMessage aw handlerWorker mid WorkerMsgType.stoppedMsg = aw
    ∧ onWorkerErrorEvent aw handlerWorker mid = aw
    ∧ (∀ code : Int, onWorkerExitEvent aw handlerWorker mid code = aw)
    ∧ onWorkerMessage aw handlerWorker mid WorkerMsgType.marketClosed
        = removeWorker aw mid := by
  simp [onWorkerMessage, onWorkerErrorEvent, onWorkerExitEvent, hlk, hne]

theorem supervisor_removal_guarded_witness :
    onWorkerMessage [("m", 2)] 1 "m" WorkerMsgType.closedMsg = [("m", 2)]
    ∧ onWorkerMessage [("m", 2)] 1 "m" WorkerMsgType.stoppedMsg = [("m", 2)]
    ∧ onWorkerErrorEvent [("m", 2)] 1 "m" = [("m", 2)]
    ∧ onWorkerExitEvent [("m", 2)] 1 "m" 1 = [("m", 2)] := by
  have h := supervisor_removal_guarded [("m", 2)] 1 2 "m" (by simp [lookupWorker]) (by decide)
  exact ⟨h.1, h.2.1, h.2.2.1, h.2.2.2.1 1⟩

/-- C4: starting from `ballInProgress = false` and `ballCount = 0`, a
SUSPENDED observation sets `ballInProgress` and never changes `ballCount`;
an OPEN observation while `ballInProgress` increments `ballCount` by
exactly 1 and clears the flag; an OPEN observation without the flag, and
any other observation (`none`, UNKNOWN, CLOSED), leave the state's
`ballCount` unchanged; consequently, over every sequence of observed
status values, `ballCount` equals the number of SUSPENDED-then-OPEN pairs
in the sequence. -/
theorem ball_state_machine :
    (∀ st : WState, (ballDetect st (some MarketStatus.SUSPENDED)).ballCount = st.ballCount
      ∧ (ballDetect st (some MarketStatus.SUSPENDED)).ballInProgress = true)
    ∧ (∀ st : WState,
        ballDetect { st with ballInProgress := true } (some MarketStatus.OPEN)
          = sendToParent { st with ballInProgress := false, ballCount := st.ballCount + 1 }
              (ParentMsg.ballCompleted (st.ballCount + 1)))
    ∧ (∀ st : WState,
        ballDetect { st with ballInProgress := false } (some MarketStatus.OPEN)
          = { st with ballInProgress := false })
    ∧ (∀ st : WState, (ballDetect st none).ballCount = st.ballCount
      ∧ (ballDetect st (some MarketStatus.UNKNOWN)).ballCount = st.ballCount
      ∧ (ballDetect st (some MarketStatus.CLOSED)).ballCount = st.ballCount)
    ∧ (∀ sts : List (Option MarketStatus),
        (List.foldl ballDetect initialWState sts).ballCount = suspendedOpenPairs false sts) := by
  refine ⟨?_, ?_, ?_, ?_, ?_⟩
  · intro st; simp [ballDetect]
  · intro st; simp [ballDetect]
  · intro st; simp [ballDetect]
  · intro st
    refine ⟨?_, ?_, ?_⟩ <;> cases hb : st.ballInProgress <;> simp [ballDetect, hb, sendToParent]
  · intro sts
    rw [foldl_ballDetect_ballCount]
    simp [initialWState]

/-- C1: when a qualifying decision arrives whose bet key is not in flight
and whose price does not match `lastBetPrice`, the guard synchronously
inserts the key into the in-flight set and updates the cooldown state
(`lastBetTime`, `lastBetPrice`) while starting exactly one submission; a
second qualifying decision for the same selection and (2-decimal-rounded)
price arriving before the first submission settles is a no-op, so exactly
one submission attempt is made; and settling a submission removes its key
from the in-flight set regardless of success or failure. -/
theorem inflight_guard_exactly_once (st : WState) (now now2 : Int) (sel : Nat)
    (d d2 : OrderIntent)
    (h1 : st.inFlightBets.contains (betKey sel d.price) = false)
    (h2 : (match st.lastBetPrice with
           | some lp => decide (|d.price - lp| < 0.01)
           | none => false) = false)
    (hk : betKey sel d2.price = betKey sel d.price) :
    handleBetDecision st now sel d
      = { st with inFlightBets := betKey sel d.price :: st.inFlightBets,
                  lastBetTime := some now, lastBetPrice := some d.price,
                  submitted := st.submitted ++ [betKey sel d.price] }
    ∧ handleBetDecision (handleBetDecision st now sel d) now2 sel d2
        = handleBetDecision st now sel d
    ∧ (handleBetDecision (handleBetDecision st now sel d) now2 sel d2).submitted
        = st.submitted ++ [betKey sel d.price]
    ∧ (∀ ok : Bool,
        (placeBetSettle (handleBetDecision (handleBetDecision st now sel d) now2 sel d2)
            (betKey sel d.price) ok).inFlightBets = st.inFlightBets)
    ∧ (∀ (s : WState) (k : Nat × Int),
        placeBetSettle s k true = placeBetSettle s k false) := by
  have hfirst : handleBetDecision st now sel d
      = { st with inFlightBets := betKey sel d.price :: st.inFlightBets,
                  lastBetTime := some now, lastBetPrice := some d.price,
                  submitted := st.submitted ++ [betKey sel d.price] } := by
    have h1' : betKey sel d.price ∉ st.inFlightBets := by simpa using h1
    simp [handleBetDecision, h1', h2]
  have hsecond : handleBetDecision (handleBetDecision st now sel d) now2 sel d2
      = handleBetDecision st now sel d := by
    rw [hfirst]
    simp [handleBetDecision, hk, List.contains_cons]
  refine ⟨hfirst, hsecond, ?_, ?_, ?_⟩
  · rw [hsecond, hfirst]
  · intro ok
    rw [hsecond, hfirst]
    simp [placeBetSettle]
  · intro s k
    simp [placeBetSettle]

theorem inflight_guard_exactly_once_witness :
    (handleBetDecision (handleBetDecision initialWState 1000 7 ⟨Side.BACK, 2, 2, 8⟩)
        1001 7 ⟨Side.BACK, 2, 2, 8⟩).submitted = [betKey 7 2]
    ∧ (placeBetSettle
        (handleBetDecision (handleBetDecision initialWState 1000 7 ⟨Side.BACK, 2, 2, 8⟩)
          1001 7 ⟨Side.BACK, 2, 2, 8⟩) (betKey 7 2) false).inFlightBets = [] := by
  have h := inflight_guard_exactly_once initialWState 1000 1001 7
    ⟨Side.BACK, 2, 2, 8⟩ ⟨Side.BACK, 2, 2, 8⟩ rfl rfl rfl
  refine ⟨?_, ?_⟩
  · rw [h.2.2.1]; rfl
  · rw [h.2.2.2.1 false]; rfl

theorem isPriceDifferenceOne_eq_true {b l : Option Rat}
    (h : isPriceDifferenceOne b l = true) : jsTruthy b = true ∧ jsTruthy l = true := by
  by_cases hb : jsTruthy b <;> by_cases hl : jsTruthy l <;>
    simp [isPriceDifferenceOne, hb, hl] at h ⊢

theorem jsTruthy_eq_true {b : Option Rat} (h : jsTruthy b = true) :
    ∃ x, b = some x ∧ x ≠ 0 := by
  cases b with
  | none => simp [jsTruthy] at h
  | some x => exact ⟨x, rfl, by simpa [jsTruthy] using h⟩

/-- C6: the decision engine emits no order intent when the spread
`|layPrice - backPrice|` is not within 0.01 of exactly 1 — including when
either price is absent — regardless of the price history, cooldown state
or thresholds. -/
theorem spread_veto (st : WState) (now : Int) (backPrice layPrice : Option Rat)
    (up down : Rat)
    (h : ∀ bv lv, backPrice = some bv → layPrice = some lv →
      ¬(|(|lv - bv|) - 1| < 0.01)) :
    evaluateBettingConditions st now backPrice layPrice up down = none := by
  have hfalse : isPriceDifferenceOne backPrice layPrice = false := by
    cases backPrice with
    | none => simp [isPriceDifferenceOne, jsTruthy]
    | some bv =>
      cases layPrice with
      | none => simp [isPriceDifferenceOne, jsTruthy]
      | some lv =>
        by_cases hb : bv = 0
        · simp [isPriceDifferenceOne, jsTruthy, hb]
        · by_cases hl : lv = 0
          · simp [isPriceDifferenceOne, jsTruthy, hb, hl]
          · have hd := h bv lv rfl rfl
            simp [isPriceDifferenceOne, jsTruthy, hb, hl, hd]
  simp [evaluateBettingConditions, hfalse]

theorem spread_veto_witness :
    evaluateBettingConditions initialWState 0 (some 2) (some 4) 5 3 = none := by
  apply spread_veto
  intro bv lv hb hl
  injection hb with hb'
  injection hl with hl'
  subst hb'
  subst hl'
  norm_num

/-- C7: accepting a decision records the acceptance time as `lastBetTime`
(or the guard changes nothing at all), and whenever `lastBetTime` holds a
(truthy) time less than 15000ms before the current evaluation, the
decision engine produces no intent, independent of prices, movement and
thresholds — so two intents are never accepted within 15 seconds of each
other in one worker. -/
theorem cooldown_veto :
    (∀ (st : WState) (now : Int) (sel : Nat) (d : OrderIntent),
      handleBetDecision st now sel d = st
      ∨ ((handleBetDecision st now sel d).lastBetTime = some now
         ∧ (handleBetDecision st now sel d).lastBetPrice = some d.price))
    ∧ (∀ (st : WState) (now t : Int) (backPrice layPrice : Option Rat) (up down : Rat),
        st.lastBetTime = some t → t ≠ 0 → now - t < 15000 →
        evaluateBettingConditions st now backPrice layPrice up down = none) := by
  constructor
  · intro st now sel d
    by_cases hc : betKey sel d.price ∈ st.inFlightBets
    · left; simp [handleBetDecision, hc]
    · by_cases hp : (match st.lastBetPrice with
        | some lp => decide (|d.price - lp| < 0.01)
        | none => false) = true
      · left; simp [handleBetDecision, hc, hp]
      · right; simp [handleBetDecision, hc, hp]
  · intro st now t backPrice layPrice up down ht htz hlt
    have hcool : cooldownActive st.lastBetTime now = true := by
      simp [cooldownActive, ht, htz, hlt]
    by_cases hs : isPriceDifferenceOne backPrice layPrice = true
    · simp [evaluateBettingConditions, hs, hcool]
    · have hs' : isPriceDifferenceOne backPrice layPrice = false := by
        simpa using hs
      simp [evaluateBettingConditions, hs']

theorem cooldown_veto_witness :
    evaluateBettingConditions { initialWState with lastBetTime := some 100 }
      5100 (some 2) (some 3) 5 3 = none := by
  exact cooldown_veto.2 { initialWState with lastBetTime := some 100 }
    5100 100 (some 2) (some 3) 5 3 rfl (by decide) (by decide)

theorem samePriceAsLastBet_eq_false {lp pp : Rat}
    (h : samePriceAsLastBet (some lp) (some pp) = false) : ¬(|pp - lp| < 0.01) := by
  simpa [samePriceAsLastBet] using h

/-- C8: whenever a last accepted order price is recorded, the decision
engine never emits an intent whose price is within 0.01 of it; and the
guard in the data handler re-checks the same condition before submission,
leaving the state untouched (no submission) when it fails. -/
theorem same_price_veto :
    (∀ (st : WState) (now : Int) (backPrice layPrice : Option Rat)
        (up down lp : Rat) (d : OrderIntent),
      st.lastBetPrice = some lp →
      evaluateBettingConditions st now backPrice layPrice up down = some d →
      ¬(|d.price - lp| < 0.01))
    ∧ (∀ (st : WState) (now : Int) (sel : Nat) (d : OrderIntent) (lp : Rat),
      st.lastBetPrice = some lp → |d.price - lp| < 0.01 →
      handleBetDecision st now sel d = st) := by
  constructor
  · intro st now backPrice layPrice up down lp d hlp h
    unfold evaluateBettingConditions at h
    by_cases hs : isPriceDifferenceOne backPrice layPrice = true
    case neg =>
      have hs' : isPriceDifferenceOne backPrice layPrice = false := by simpa using hs
      simp [hs'] at h
    obtain ⟨hb, hl⟩ := isPriceDifferenceOne_eq_true hs
    obtain ⟨bv, rfl, hbv⟩ := jsTruthy_eq_true hb
    obtain ⟨lv, rfl, hlv⟩ := jsTruthy_eq_true hl
    rw [hs] at h
    simp only [Bool.not_true, Bool.false_eq_true, if_false] at h
    by_cases hcool : cooldownActive st.lastBetTime now = true
    · rw [hcool] at h; simp at h
    · rw [Bool.not_eq_true] at hcool
      rw [hcool] at h
      simp only [Bool.false_eq_true, if_false] at h
      cases hpm : checkPriceMovement90s st.priceHistory now with
      | none => rw [hpm] at h; simp at h
      | some pm =>
        rw [hpm] at h
        dsimp only at h
        by_cases hsp : samePriceAsLastBet st.lastBetPrice
            (proposedBetPrice pm (some bv) (some lv) up down) = true
        · rw [hsp] at h; simp at h
        · rw [Bool.not_eq_true] at hsp
          rw [hsp] at h
          simp only [Bool.false_eq_true, if_false] at h
          by_cases hunch : isPriceUnchanged15s st.priceHistory now = true
          · rw [hunch] at h; simp at h
          · rw [Bool.not_eq_true] at hunch
            rw [hunch] at h
            simp only [Bool.false_eq_true, if_false] at h
            by_cases hup : pm.movement ≥ up
            · rw [if_pos hup] at h
              have hprop : proposedBetPrice pm (some bv) (some lv) up down = some bv := by
                simp [proposedBetPrice, hup]
              rw [hlp, hprop] at hsp
              have hne := samePriceAsLastBet_eq_false hsp
              have hd : d.price = bv := by
                cases h; rfl
              rw [hd]
              simpa using hne
            · rw [if_neg hup] at h
              by_cases hdown : pm.movement ≤ -down
              · rw [if_pos hdown] at h
                have hprop : proposedBetPrice pm (some bv) (some lv) up down = some lv := by
                  simp [proposedBetPrice, hup, hdown]
                rw [hlp, hprop] at hsp
                have hne := samePriceAsLastBet_eq_false hsp
                have hd : d.price = lv := by
                  cases h; rfl
                rw [hd]
                simpa using hne
              · rw [if_neg hdown] at h; simp at h
  · intro st now sel d lp hlp hclose
    by_cases hc : betKey sel d.price ∈ st.inFlightBets
    · simp [handleBetDecision, hc]
    · simp [handleBetDecision, hc, hlp, hclose]

theorem same_price_veto_witness :
    evaluateBettingConditions
      { initialWState with
          priceHistory := [⟨0, some 2, none, 1⟩, ⟨1000, some 8, none, 2⟩],
          lastBetPrice := some 10 }
      50000 (some 2) (some 3) 5 3
      = some ⟨Side.BACK, 2, 2, 8⟩
    ∧ ¬(|(2:Rat) - 10| < 0.01) := by
  have heval : evaluateBettingConditions
      { initialWState with
          priceHistory := [⟨0, some 2, none, 1⟩, ⟨1000, some 8, none, 2⟩],
          lastBetPrice := some 10 }
      50000 (some 2) (some 3) 5 3
      = some ⟨Side.BACK, 2, 2, 8⟩ := by
    norm_num [evaluateBettingConditions, isPriceDifferenceOne, jsTruthy, cooldownActive,
      checkPriceMovement90s, isPriceUnchanged15s, samePriceAsLastBet, proposedBetPrice,
      jsOr, List.filter, initialWState]
  exact ⟨heval, same_price_veto.1 _ 50000 (some 2) (some 3) 5 3 10
    ⟨Side.BACK, 2, 2, 8⟩ rfl heval⟩

theorem goodSample_price {s : PriceSample} (hs : goodSample s) :
    ∃ a : Rat, jsOr s.backPrice s.layPrice = some a
      ∧ specSamplePrice s = some a ∧ a ≠ 0 := by
  obtain ⟨h1, h2, h3⟩ := hs
  cases hb : s.backPrice with
  | some bv =>
    have hbv : bv ≠ 0 := by
      rintro rfl
      exact h1 hb
    exact ⟨bv, by simp [jsOr, hb, hbv], by simp [specSamplePrice, hb], hbv⟩
  | none =>
    cases hl : s.layPrice with
    | none =>
      cases h3 with
      | inl h => exact absurd hb h
      | inr h => exact absurd hl h
    | some lv =>
      have hlv : lv ≠ 0 := by
        rintro rfl
        exact h2 hl
      exact ⟨lv, by simp [jsOr, hb, hl], by simp [specSamplePrice, hb, hl], hlv⟩

/-- C5: for every price history whose samples are well formed (at least
one price present, no zero prices) and any current time, the trailing-90s
movement query returns `none` ("insufficient data") when fewer than 2
samples have a timestamp within the last 90000ms, and otherwise returns
`newest - oldest` over the qualifying samples, where a sample's price is
its back price if present, else its lay price. -/
theorem movement_query (history : List PriceSample) (now : Int)
    (hgood : ∀ s ∈ history, goodSample s) :
    ((history.filter (fun p => decide (p.timestamp ≥ now - 90000))).length < 2 →
      checkPriceMovement90s history now = none)
    ∧ (∀ oldest newest,
        (history.filter (fun p => decide (p.timestamp ≥ now - 90000))).head? = some oldest →
        (history.filter (fun p => decide (p.timestamp ≥ now - 90000))).getLast? = some newest →
        2 ≤ (history.filter (fun p => decide (p.timestamp ≥ now - 90000))).length →
        ∃ a b : Rat, specSamplePrice oldest = some a ∧ specSamplePrice newest = some b ∧
          checkPriceMovement90s history now = some ⟨b - a, a, b⟩) := by
  constructor
  · intro h
    simp only [checkPriceMovement90s]
    rw [if_pos h]
  · intro oldest newest hh hl hlen
    have hom : oldest ∈ history :=
      (List.mem_filter.mp (List.mem_of_mem_head? hh)).1
    have hnm : newest ∈ history :=
      (List.mem_filter.mp (List.mem_of_mem_getLast? hl)).1
    obtain ⟨a, hja, hsa, ha0⟩ := goodSample_price (hgood _ hom)
    obtain ⟨b, hjb, hsb, hb0⟩ := goodSample_price (hgood _ hnm)
    refine ⟨a, b, hsa, hsb, ?_⟩
    simp only [checkPriceMovement90s]
    rw [if_neg (by omega), hh, hl]
    dsimp only
    rw [hja, hjb]
    dsimp only
    rw [if_neg (by tauto)]

theorem movement_query_witness :
    checkPriceMovement90s [⟨0, some 2, none, 1⟩, ⟨1000, some 8, none, 2⟩] 50000
      = some ⟨6, 2, 8⟩ := by
  have hgood : ∀ s ∈ [(⟨0, some 2, none, 1⟩ : PriceSample), ⟨1000, some 8, none, 2⟩],
      goodSample s := by
    intro s hs
    rcases List.mem_cons.mp hs with rfl | hs'
    · exact ⟨by decide, by decide, Or.inl (by decide)⟩
    · rcases List.mem_cons.mp hs' with rfl | hs''
      · exact ⟨by decide, by decide, Or.inl (by decide)⟩
      · exact absurd hs'' (List.not_mem_nil s)
  obtain ⟨a, b, ha, hb, h⟩ :=
    (movement_query [⟨0, some 2, none, 1⟩, ⟨1000, some 8, none, 2⟩] 50000 hgood).2
      ⟨0, some 2, none, 1⟩ ⟨1000, some 8, none, 2⟩
      (by norm_num [List.filter]) (by norm_num [List.filter]) (by norm_num [List.filter])
  simp only [specSamplePrice, Option.some.injEq] at ha hb
  rw [h, ← ha, ← hb]
  norm_num

theorem processBlocks_abort (cfg : WorkerConfig) (now : Int) :
    ∀ (blocks : List MarketBlock) (st : WState),
      (processBlocks cfg st now blocks).2 = true →
      (processBlocks cfg st now blocks).1.isRunning = false
      ∧ (processBlocks cfg st now blocks).1.socketAlive = false
      ∧ ∃ l, (processBlocks cfg st now blocks).1.outbox
          = l ++ [ParentMsg.marketClosed, ParentMsg.closed] := by
  intro blocks
  induction blocks with
  | nil => intro st h; simp [processBlocks] at h
  | cons b rest ih =>
    intro st h
    by_cases hc : b.marketStatus = some MarketStatus.CLOSED
    · have he : processBlocks cfg st now (b :: rest)
          = (cleanupWorker (sendToParent st ParentMsg.marketClosed), true) := by
        simp [processBlocks, hc]
      rw [he]
      refine ⟨by simp [cleanupWorker, sendToParent], by simp [cleanupWorker, sendToParent],
        st.outbox, by simp [cleanupWorker, sendToParent]⟩
    · have he : processBlocks cfg st now (b :: rest)
          = processBlocks cfg (processRunners cfg (ballDetect st b.marketStatus) now b.rc)
              now rest := by
        simp [processBlocks, hc]
      rw [he] at h ⊢
      exact ih _ h

theorem processBlocks_closed_drop (cfg : WorkerConfig) (now : Int) (b : MarketBlock)
    (hb : b.marketStatus = some MarketStatus.CLOSED) :
    ∀ (pre post : List MarketBlock) (st : WState),
      processBlocks cfg st now (pre ++ b :: post)
        = processBlocks cfg st now (pre ++ [b]) := by
  intro pre
  induction pre with
  | nil =>
    intro post st
    simp [processBlocks, hb]
  | cons x rest ih =>
    intro post st
    by_cases hx : x.marketStatus = some MarketStatus.CLOSED
    · simp [processBlocks, hx]
    · simp only [List.cons_append]
      have hx' : processBlocks cfg st now (x :: (rest ++ b :: post))
          = processBlocks cfg (processRunners cfg (ballDetect st x.marketStatus) now x.rc)
              now (rest ++ b :: post) := by
        simp [processBlocks, hx]
      have hx'' : processBlocks cfg st now (x :: (rest ++ [b]))
          = processBlocks cfg (processRunners cfg (ballDetect st x.marketStatus) now x.rc)
              now (rest ++ [b]) := by
        simp [processBlocks, hx]
      rw [hx', hx'']
      exact ih post _

theorem processBlocks_closed_aborts (cfg : WorkerConfig) (now : Int) (b : MarketBlock)
    (hb : b.marketStatus = some MarketStatus.CLOSED) :
    ∀ (pre post : List MarketBlock) (st : WState),
      (processBlocks cfg st now (pre ++ b :: post)).2 = true := by
  intro pre
  induction pre with
  | nil => intro post st; simp [processBlocks, hb]
  | cons x rest ih =>
    intro post st
    by_cases hx : x.marketStatus = some MarketStatus.CLOSED
    · simp [processBlocks, hx]
    · simp only [List.cons_append]
      have hx' : processBlocks cfg st now (x :: (rest ++ b :: post))
          = processBlocks cfg (processRunners cfg (ballDetect st x.marketStatus) now x.rc)
              now (rest ++ b :: post) := by
        simp [processBlocks, hx]
      rw [hx']
      exact ih post _

/-- C9: when a change block carries market-definition status CLOSED, the
worker sends `marketClosed`, performs cleanup (running flag cleared,
socket destroyed, `closed` sent) and processes nothing further from that
read: the run over the whole frame list equals the run that stops at the
CLOSED block, so the blocks after it and all remaining frames of the read
contribute no tracker update, evaluation, or submission. -/
theorem market_closure_terminal (cfg : WorkerConfig) (st : WState) (now : Int)
    (pre post : List MarketBlock) (rest : List StreamMsg) (b : MarketBlock)
    (hb : b.marketStatus = some MarketStatus.CLOSED) :
    processMessages cfg st now (StreamMsg.mcm (pre ++ b :: post) :: rest)
      = processMessages cfg st now [StreamMsg.mcm (pre ++ [b])]
    ∧ (st.isRunning = true →
        (processMessages cfg st now (StreamMsg.mcm (pre ++ b :: post) :: rest)).isRunning = false
        ∧ (processMessages cfg st now (StreamMsg.mcm (pre ++ b :: post) :: rest)).socketAlive = false
        ∧ ∃ l, (processMessages cfg st now (StreamMsg.mcm (pre ++ b :: post) :: rest)).outbox
            = l ++ [ParentMsg.marketClosed, ParentMsg.closed]) := by
  by_cases hr : st.isRunning = true
  case neg =>
    have hr' : st.isRunning = false := by simpa using hr
    constructor
    · simp [processMessages, hr']
    · intro h
      exact absurd h hr
  case pos =>
    have e1 : ∀ (bl : List MarketBlock) (rs : List StreamMsg),
        (processBlocks cfg st now bl).2 = true →
        processMessages cfg st now (StreamMsg.mcm bl :: rs)
          = (processBlocks cfg st now bl).1 := by
      intro bl rs ha
      rcases hp : processBlocks cfg st now bl with ⟨st1, flag⟩
      rw [hp] at ha
      simp only at ha
      subst ha
      simp [processMessages, processMsg, hr, hp]
    have habortL := processBlocks_closed_aborts cfg now b hb pre post st
    have habortR := processBlocks_closed_aborts cfg now b hb pre [] st
    have heqL := e1 (pre ++ b :: post) rest habortL
    have heqR := e1 (pre ++ [b]) [] habortR
    have heq : processMessages cfg st now (StreamMsg.mcm (pre ++ b :: post) :: rest)
        = processMessages cfg st now [StreamMsg.mcm (pre ++ [b])] := by
      rw [heqL, heqR, processBlocks_closed_drop cfg now b hb pre post st]
    refine ⟨heq, fun _ => ?_⟩
    rw [heqL]
    exact processBlocks_abort cfg now (pre ++ b :: post) st habortL

theorem market_closure_terminal_witness :
    (processMessages ⟨5, 3⟩ initialWState 0
        [StreamMsg.mcm [⟨some MarketStatus.CLOSED, []⟩]]).isRunning = false
    ∧ (processMessages ⟨5, 3⟩ initialWState 0
        [StreamMsg.mcm [⟨some MarketStatus.CLOSED, []⟩]]).socketAlive = false
    ∧ ∃ l, (processMessages ⟨5, 3⟩ initialWState 0
        [StreamMsg.mcm [⟨some MarketStatus.CLOSED, []⟩]]).outbox
        = l ++ [ParentMsg.marketClosed, ParentMsg.closed] := by
  have h := market_closure_terminal ⟨5, 3⟩ initialWState 0 [] [] []
    ⟨some MarketStatus.CLOSED, []⟩ rfl
  exact h.2 rfl

theorem checkPriceMovement90s_relabel (f : Nat → Nat) (history : List PriceSample)
    (now : Int) :
    checkPriceMovement90s (history.map (relabelSample f)) now
      = checkPriceMovement90s history now := by
  simp only [checkPriceMovement90s]
  have hpred : ((fun p : PriceSample => decide (p.timestamp ≥ now - 90000))
      ∘ relabelSample f)
      = (fun p : PriceSample => decide (p.timestamp ≥ now - 90000)) := rfl
  rw [List.filter_map, hpred, List.length_map, List.head?_map, List.getLast?_map]
  by_cases hlen : (history.filter (fun p => decide (p.timestamp ≥ now - 90000))).length < 2
  · rw [if_pos hlen, if_pos hlen]
  · rw [if_neg hlen, if_neg hlen]
    cases h1 : (history.filter (fun p => decide (p.timestamp ≥ now - 90000))).head? with
    | none => simp
    | some oldest =>
      cases h2 : (history.filter (fun p => decide (p.timestamp ≥ now - 90000))).getLast? with
      | none => simp
      | some newest => simp [relabelSample, jsOr]

theorem isPriceUnchanged15s_relabel (f : Nat → Nat) (history : List PriceSample)
    (now : Int) :
    isPriceUnchanged15s (history.map (relabelSample f)) now
      = isPriceUnchanged15s history now := by
  simp only [isPriceUnchanged15s]
  have hpred : ((fun p : PriceSample => decide (p.timestamp ≥ now - 15000))
      ∘ relabelSample f)
      = (fun p : PriceSample => decide (p.timestamp ≥ now - 15000)) := rfl
  rw [List.filter_map, hpred, List.length_map, List.head?_map]
  by_cases hlen : (history.filter (fun p => decide (p.timestamp ≥ now - 15000))).length < 2
  · rw [if_pos hlen, if_pos hlen]
  · rw [if_neg hlen, if_neg hlen]
    cases h1 : (history.filter (fun p => decide (p.timestamp ≥ now - 15000))).head? with
    | none => simp
    | some first =>
      simp only [Option.map_some']
      rw [List.all_map]
      have hall : ((fun p : PriceSample =>
          match jsOr p.backPrice p.layPrice with
          | some currentPrice =>
            decide (currentPrice ≠ 0)
              && decide (|currentPrice
                  - (jsOr (relabelSample f first).backPrice
                      (relabelSample f first).layPrice).getD 0| < 0.01)
          | none => false) ∘ relabelSample f)
          = (fun p : PriceSample =>
          match jsOr p.backPrice p.layPrice with
          | some currentPrice =>
            decide (currentPrice ≠ 0)
              && decide (|currentPrice
                  - (jsOr first.backPrice first.layPrice).getD 0| < 0.01)
          | none => false) := rfl
      rw [hall]

/-- C10 (implicit): both window queries aggregate over all samples of the
market irrespective of `selectionId` — relabelling every sample's
`selectionId` changes neither query's result — and concretely, in a
history whose two samples belong to different runners (selection 1 at
price 2, then selection 2 at price 8), the movement query answers with the
newest and oldest samples of those different runners (movement 6 = 8 − 2),
and the decision engine emits a BACK intent for the evaluated runner from
that cross-runner movement. -/
theorem window_queries_ignore_selection :
    (∀ (f : Nat → Nat) (history : List PriceSample) (now : Int),
      checkPriceMovement90s (history.map (relabelSample f)) now
        = checkPriceMovement90s history now
      ∧ isPriceUnchanged15s (history.map (relabelSample f)) now
        = isPriceUnchanged15s history now)
    ∧ ((⟨0, some 2, none, 1⟩ : PriceSample).selectionId
        ≠ (⟨1000, some 8, none, 2⟩ : PriceSample).selectionId)
    ∧ checkPriceMovement90s [⟨0, some 2, none, 1⟩, ⟨1000, some 8, none, 2⟩] 50000
        = some ⟨6, 2, 8⟩
    ∧ evaluateBettingConditions
        { initialWState with
            priceHistory := [⟨0, some 2, none, 1⟩, ⟨1000, some 8, none, 2⟩] }
        50000 (some 2) (some 3) 5 3
        = some ⟨Side.BACK, 2, 2, 8⟩ := by
  refine ⟨?_, by decide, ?_, ?_⟩
  · intro f history now
    exact ⟨checkPriceMovement90s_relabel f history now,
      isPriceUnchanged15s_relabel f history now⟩
  · norm_num [checkPriceMovement90s, jsOr, List.filter]
  · norm_num [evaluateBettingConditions, isPriceDifferenceOne, jsTruthy, cooldownActive,
      checkPriceMovement90s, isPriceUnchanged15s, samePriceAsLastBet, proposedBetPrice,
      jsOr, List.filter, initialWState]
